import Mathlib

/-!
Shallow embedding of the EasyVocab core (src/app.py): the SM-2-style SRS
scheduler (`submit_quiz_result`), the daily-counter/dedup guard
(`increment_daily_counter`), the debt accounting engine (`get_word_debt`)
and the due-word selection query (`get_next_quiz_word`).

Conventions: calendar dates and timestamps are modelled as integers
(timestamps in seconds, dates as day numbers); database DECIMAL/float
columns as rationals; nullable columns as `Option`.
-/

/-- Python `x or d` defaulting on a nullable integer column: yields `d` when
the stored value is NULL or `0` (both falsy in Python), else the value. -/
def pyOrInt (x : Option ℤ) (d : ℤ) : ℤ :=
  match x with
  | none => d
  | some v => if v = 0 then d else v

/-- Python `x or d` defaulting on a nullable numeric column, rational case. -/
def pyOrRat (x : Option ℚ) (d : ℚ) : ℚ :=
  match x with
  | none => d
  | some v => if v = 0 then d else v

/-- Python `int(x)` on a rational: truncation toward zero. -/
def pyInt (q : ℚ) : ℤ := if q < 0 then ⌈q⌉ else ⌊q⌋

/-- Result of one SRS update in `submit_quiz_result` (src/app.py lines
1886-1918): the new `srs_interval`, `srs_repetitions`, `srs_ease_factor`
and the new legacy `review_count` deficit metric. -/
structure SRSResult where
  interval : ℤ
  repetitions : ℤ
  ease_factor : ℚ
  new_count : ℤ
  deriving Repr, DecidableEq

/-- The inline SRS block of `submit_quiz_result` (the spec's
`applyReviewOutcome`): branches on `result == "remember"`, computing the
new interval/repetitions/ease factor and the updated legacy deficit metric
exactly as the Python code does (`int(...)` truncation, `max(0, c-1)`,
`max(1.3, e-0.15)`). -/
def applyReviewOutcome (interval repetitions : ℤ) (ease_factor : ℚ)
    (current_count : ℤ) (result : String) : SRSResult :=
  if result = "remember" then
    { interval :=
        if repetitions = 0 then 1
        else if repetitions = 1 then 6
        else pyInt ((interval : ℚ) * ease_factor)
      repetitions := repetitions + 1
      ease_factor := ease_factor
      new_count := max 0 (current_count - 1) }
  else
    { interval := 0
      repetitions := 0
      ease_factor := max 1.3 (ease_factor - 0.15)
      new_count := current_count + 1 }

/-- Seconds in one day, the unit of `timedelta(days=...)`. -/
def secondsPerDay : ℤ := 86400

/-- Next-review timestamp computation of `submit_quiz_result`: re-queue
immediately when the new interval is 0, else `now + interval` days. -/
def next_review (now : ℤ) (interval : ℤ) : ℤ :=
  if interval = 0 then now else now + interval * secondsPerDay

/-- C1: on outcome "remember", for any input state with interval ≥ 0,
repetitions ≥ 0 and ease factor ≥ 1.3, the new interval is 1 when
repetitions = 0, 6 when repetitions = 1, and ⌊interval · easeFactor⌋
otherwise; repetitions are incremented, the ease factor is unchanged, the
legacy deficit metric becomes max(0, current − 1), and whenever the new
interval is ≥ 1 the next review timestamp is now + interval days. -/
theorem remembered_transition (i r : ℤ) (e : ℚ) (c now : ℤ)
    (hi : 0 ≤ i) (hr : 0 ≤ r) (he : (13 : ℚ)/10 ≤ e) :
    (applyReviewOutcome i r e c "remember").interval =
        (if r = 0 then 1 else if r = 1 then 6 else ⌊(i : ℚ) * e⌋) ∧
    (applyReviewOutcome i r e c "remember").repetitions = r + 1 ∧
    (applyReviewOutcome i r e c "remember").ease_factor = e ∧
    (applyReviewOutcome i r e c "remember").new_count = max 0 (c - 1) ∧
    (1 ≤ (applyReviewOutcome i r e c "remember").interval →
      next_review now (applyReviewOutcome i r e c "remember").interval =
        now + (applyReviewOutcome i r e c "remember").interval * secondsPerDay) := by
  have hprod : ¬ ((i : ℚ) * e < 0) := by
    push_neg
    exact mul_nonneg (by exact_mod_cast hi) (le_trans (by norm_num) he)
  refine ⟨?_, ?_, ?_, ?_, ?_⟩
  · simp [applyReviewOutcome, pyInt, hprod]
  · simp [applyReviewOutcome]
  · simp [applyReviewOutcome]
  · simp [applyReviewOutcome]
  · intro h1
    have h0 : (applyReviewOutcome i r e c "remember").interval ≠ 0 := by omega
    simp [next_review, h0]

/-- Witness for `remembered_transition` at the concrete state
(interval 2, repetitions 3, ease 2, count 5, now 0): hypotheses hold and
the new interval evaluates to ⌊2 · 2⌋ = 4. -/
theorem remembered_transition_witness :
    ((0 : ℤ) ≤ 2 ∧ (0 : ℤ) ≤ 3 ∧ (13 : ℚ)/10 ≤ 2) ∧
    (applyReviewOutcome 2 3 2 5 "remember").interval = 4 ∧
    (applyReviewOutcome 2 3 2 5 "remember").repetitions = 4 := by
  have h := remembered_transition 2 3 2 5 0 (by norm_num) (by norm_num) (by norm_num)
  refine ⟨⟨by norm_num, by norm_num, by norm_num⟩, ?_, ?_⟩
  · have h1 := h.1
    norm_num at h1
    simpa using h1
  · simpa using h.2.1

/-- C2: on outcome "not_remember", for every input state the repetitions
and interval reset to 0, the ease factor becomes max(1.3, old − 0.15) and
in particular never drops below 1.3, the legacy deficit metric is
incremented, and the next review timestamp is now (immediately due). -/
theorem not_remembered_transition (i r : ℤ) (e : ℚ) (c now : ℤ) :
    (applyReviewOutcome i r e c "not_remember").repetitions = 0 ∧
    (applyReviewOutcome i r e c "not_remember").interval = 0 ∧
    (applyReviewOutcome i r e c "not_remember").ease_factor = max 1.3 (e - 0.15) ∧
    (13 : ℚ)/10 ≤ (applyReviewOutcome i r e c "not_remember").ease_factor ∧
    (applyReviewOutcome i r e c "not_remember").new_count = c + 1 ∧
    next_review now (applyReviewOutcome i r e c "not_remember").interval = now := by
  have hs : ("not_remember" : String) ≠ "remember" := by decide
  refine ⟨by simp [applyReviewOutcome, hs], by simp [applyReviewOutcome, hs],
    by simp [applyReviewOutcome, hs], ?_, by simp [applyReviewOutcome, hs], ?_⟩
  · simp only [applyReviewOutcome, hs, if_neg]
    exact le_trans (by norm_num) (le_max_left _ _)
  · simp [applyReviewOutcome, hs, next_review]

/-- C7: starting from a fresh word state (repetitions 0, interval 0, ease
2.5), applying "remember" and then "not_remember" returns the SRS state
exactly to repetitions 0, interval 0, ease factor 2.35. -/
theorem srs_round_trip :
    (applyReviewOutcome (applyReviewOutcome 0 0 2.5 0 "remember").interval
        (applyReviewOutcome 0 0 2.5 0 "remember").repetitions
        (applyReviewOutcome 0 0 2.5 0 "remember").ease_factor 0
        "not_remember").repetitions = 0 ∧
    (applyReviewOutcome (applyReviewOutcome 0 0 2.5 0 "remember").interval
        (applyReviewOutcome 0 0 2.5 0 "remember").repetitions
        (applyReviewOutcome 0 0 2.5 0 "remember").ease_factor 0
        "not_remember").interval = 0 ∧
    (applyReviewOutcome (applyReviewOutcome 0 0 2.5 0 "remember").interval
        (applyReviewOutcome 0 0 2.5 0 "remember").repetitions
        (applyReviewOutcome 0 0 2.5 0 "remember").ease_factor 0
        "not_remember").ease_factor = 2.35 := by
  have hs : ("not_remember" : String) ≠ "remember" := by decide
  refine ⟨by simp [applyReviewOutcome, hs], by simp [applyReviewOutcome, hs], ?_⟩
  simp only [applyReviewOutcome, hs, if_neg, if_pos]
  norm_num [max_def]

/-- Lookup of `daily_counts.get(date, 0)`: the review count recorded for a
date in the `daily_study_log` rows, defaulting to 0 when absent. -/
def ledgerCount : List (ℤ × ℤ) → ℤ → ℤ
  | [], _ => 0
  | (d0, c) :: rest, d => if d0 = d then c else ledgerCount rest d

/-- The `INSERT INTO daily_study_log ... ON DUPLICATE KEY UPDATE
review_count = review_count + 1` upsert: bump an existing row for the date,
or create one with count 1. -/
def bumpLedger : List (ℤ × ℤ) → ℤ → List (ℤ × ℤ)
  | [], d => [(d, 1)]
  | (d0, c) :: rest, d =>
      if d0 = d then (d0, c + 1) :: rest else (d0, c) :: bumpLedger rest d

/-- The `INSERT INTO daily_word_reviews ... ON DUPLICATE KEY UPDATE
review_date = review_date` upsert: insert the (word_id, date) dedup row,
a no-op when it already exists. -/
def insertDedup (rows : List (ℤ × ℤ)) (wid d : ℤ) : List (ℤ × ℤ) :=
  if (wid, d) ∈ rows then rows else rows ++ [(wid, d)]

/-- The `increment_daily_counter` function of src/app.py (lines 354-412),
acting on the dedup-guard rows and the daily ledger. `dedupTable` is true
when the `daily_word_reviews` table exists; when it does not, the SELECT
raises, the exception is swallowed (`except Exception: pass`) and the
counter is incremented without deduplication. Returns whether the
increment was applied, with the new dedup rows and ledger. -/
def increment_daily_counter (dedupTable : Bool) (dedup ledger : List (ℤ × ℤ))
    (word_id : Option ℤ) (today : ℤ) : Bool × List (ℤ × ℤ) × List (ℤ × ℤ) :=
  match word_id with
  | some wid =>
      if dedupTable then
        if (wid, today) ∈ dedup then (false, dedup, ledger)
        else (true, insertDedup dedup wid today, bumpLedger ledger today)
      else (true, dedup, bumpLedger ledger today)
  | none => (true, dedup, bumpLedger ledger today)

theorem ledgerCount_bump (L : List (ℤ × ℤ)) (d : ℤ) :
    ledgerCount (bumpLedger L d) d = ledgerCount L d + 1 := by
  induction L with
  | nil => simp [bumpLedger, ledgerCount]
  | cons p rest ih =>
      obtain ⟨d0, c⟩ := p
      by_cases h : d0 = d
      · simp [bumpLedger, ledgerCount, h]
      · simp [bumpLedger, ledgerCount, h, ih]

theorem mem_insertDedup (rows : List (ℤ × ℤ)) (wid d : ℤ) :
    (wid, d) ∈ insertDedup rows wid d := by
  unfold insertDedup
  by_cases h : (wid, d) ∈ rows
  · simpa [h]
  · simp [h]

/-- C5: with the guard table present and no dedup row yet for
(wordId, date), two sequential `increment_daily_counter` calls for the same
word and day increment the ledger exactly once — the first inserts the
dedup row, increments and returns true, the second finds the row and
returns false without incrementing; two calls without a word id both
return true and increment twice. -/
theorem creditDay_dedup (dedup ledger : List (ℤ × ℤ)) (wid today : ℤ)
    (h : (wid, today) ∉ dedup) :
    (increment_daily_counter true dedup ledger (some wid) today).1 = true ∧
    (increment_daily_counter true
        (increment_daily_counter true dedup ledger (some wid) today).2.1
        (increment_daily_counter true dedup ledger (some wid) today).2.2
        (some wid) today).1 = false ∧
    ledgerCount (increment_daily_counter true
        (increment_daily_counter true dedup ledger (some wid) today).2.1
        (increment_daily_counter true dedup ledger (some wid) today).2.2
        (some wid) today).2.2 today = ledgerCount ledger today + 1 ∧
    (increment_daily_counter true dedup ledger none today).1 = true ∧
    (increment_daily_counter true
        (increment_daily_counter true dedup ledger none today).2.1
        (increment_daily_counter true dedup ledger none today).2.2
        none today).1 = true ∧
    ledgerCount (increment_daily_counter true
        (increment_daily_counter true dedup ledger none today).2.1
        (increment_daily_counter true dedup ledger none today).2.2
        none today).2.2 today = ledgerCount ledger today + 2 := by
  have h1 : increment_daily_counter true dedup ledger (some wid) today
      = (true, insertDedup dedup wid today, bumpLedger ledger today) := by
    simp [increment_daily_counter, h]
  have h2 : increment_daily_counter true (insertDedup dedup wid today)
      (bumpLedger ledger today) (some wid) today
      = (false, insertDedup dedup wid today, bumpLedger ledger today) := by
    simp [increment_daily_counter, mem_insertDedup]
  refine ⟨by simp [h1], ?_, ?_, ?_, ?_, ?_⟩
  · rw [h1]
    simp [h2]
  · rw [h1]
    simp [h2, ledgerCount_bump]
  · simp [increment_daily_counter]
  · simp [increment_daily_counter]
  · simp [increment_daily_counter, ledgerCount_bump]
    omega

/-- Witness for `creditDay_dedup`: from an empty guard table and ledger,
crediting word 1 on day 0 twice applies once (second call returns false)
and leaves the day count at 1. -/
theorem creditDay_dedup_witness :
    ((1, 0) ∉ ([] : List (ℤ × ℤ))) ∧
    (increment_daily_counter true
        (increment_daily_counter true [] [] (some 1) 0).2.1
        (increment_daily_counter true [] [] (some 1) 0).2.2
        (some 1) 0).1 = false ∧
    ledgerCount (increment_daily_counter true
        (increment_daily_counter true [] [] (some 1) 0).2.1
        (increment_daily_counter true [] [] (some 1) 0).2.2
        (some 1) 0).2.2 0 = 1 := by
  have h := creditDay_dedup [] [] 1 0 (by simp)
  exact ⟨by simp, h.2.1, by
    have h3 := h.2.2.1
    simpa [ledgerCount] using h3⟩

/-- C10: when the `daily_word_reviews` guard table is missing, the raised
exception is swallowed and `increment_daily_counter` skips deduplication:
each call still increments the ledger and returns true, so two calls for
the same (date, wordId) increment the day count twice. -/
theorem creditDay_table_missing (dedup ledger : List (ℤ × ℤ)) (wid today : ℤ) :
    (increment_daily_counter false dedup ledger (some wid) today).1 = true ∧
    (increment_daily_counter false
        (increment_daily_counter false dedup ledger (some wid) today).2.1
        (increment_daily_counter false dedup ledger (some wid) today).2.2
        (some wid) today).1 = true ∧
    ledgerCount (increment_daily_counter false
        (increment_daily_counter false dedup ledger (some wid) today).2.1
        (increment_daily_counter false dedup ledger (some wid) today).2.2
        (some wid) today).2.2 today = ledgerCount ledger today + 2 := by
  refine ⟨by simp [increment_daily_counter], by simp [increment_daily_counter], ?_⟩
  simp [increment_daily_counter, ledgerCount_bump]
  omega

/-- Program counter of one caller executing the word-id branch of
`increment_daily_counter`: about to run the dedup SELECT; holding the
SELECT result; past the dedup INSERT; or finished with a return value. -/
inductive CounterPC where
  | start : CounterPC
  | checked : Bool → CounterPC
  | inserted : CounterPC
  | finished : Bool → CounterPC
  deriving Repr, DecidableEq

/-- Shared database plus the program counters of two concurrent callers of
`increment_daily_counter` for the same word and day. -/
structure RaceState where
  dedup : List (ℤ × ℤ)
  ledger : List (ℤ × ℤ)
  t0 : CounterPC
  t1 : CounterPC
  deriving Repr, DecidableEq

/-- One database round trip of a single caller of
`increment_daily_counter(word_id)`: the dedup SELECT, the early return
when a row was found, the dedup-row INSERT, and the ledger increment —
each step atomic on its own, as the code issues them as separate
statements. -/
def counterStep (wid d : ℤ) (db : List (ℤ × ℤ) × List (ℤ × ℤ))
    (pc : CounterPC) : (List (ℤ × ℤ) × List (ℤ × ℤ)) × CounterPC :=
  match pc with
  | CounterPC.start => (db, CounterPC.checked (decide ((wid, d) ∈ db.1)))
  | CounterPC.checked true => (db, CounterPC.finished false)
  | CounterPC.checked false => ((insertDedup db.1 wid d, db.2), CounterPC.inserted)
  | CounterPC.inserted => ((db.1, bumpLedger db.2 d), CounterPC.finished true)
  | CounterPC.finished b => (db, CounterPC.finished b)

/-- Scheduler step: run one atomic round trip of the chosen caller
(false = first caller, true = second) against the shared database. -/
def schedStep (wid d : ℤ) (s : RaceState) (t : Bool) : RaceState :=
  if t then
    let r := counterStep wid d (s.dedup, s.ledger) s.t1
    { dedup := r.1.1, ledger := r.1.2, t0 := s.t0, t1 := r.2 }
  else
    let r := counterStep wid d (s.dedup, s.ledger) s.t0
    { dedup := r.1.1, ledger := r.1.2, t0 := r.2, t1 := s.t1 }

/-- Run a schedule (an interleaving of the two callers' round trips). -/
def runSched (wid d : ℤ) (sched : List Bool) (s : RaceState) : RaceState :=
  sched.foldl (schedStep wid d) s

/-- Initial state: empty guard table and ledger, both callers ready. -/
def raceInit : RaceState :=
  { dedup := [], ledger := [], t0 := CounterPC.start, t1 := CounterPC.start }

/-- C9 counterexample: it is NOT true that under every interleaving of two
concurrent `increment_daily_counter` callers for the same (wordId, date)
the day's ledger count stays ≤ 1: the schedule in which both callers run
their dedup SELECT before either inserts lets both pass the check and
increment, leaving the count at 2. -/
theorem counter_race_not_atomic :
    ¬ (∀ sched : List Bool,
        ledgerCount (runSched 1 0 sched raceInit).ledger 0 ≤ 1) := by
  intro h
  exact absurd (h [false, true, false, false, true, true]) (by decide)

/-- C9 amended: the dedup check-then-insert of `increment_daily_counter`
is a SELECT followed by a separate conditional INSERT, not one atomic
upsert. Serialized execution of the two callers credits the day exactly
once (the second caller returns false), but the interleaving in which both
callers pass the dedup SELECT before either inserts credits the day twice,
both callers returning true. -/
theorem counter_race_amended :
    (ledgerCount (runSched 1 0 [false, false, false, true, true] raceInit).ledger 0 = 1 ∧
     (runSched 1 0 [false, false, false, true, true] raceInit).t0 = CounterPC.finished true ∧
     (runSched 1 0 [false, false, false, true, true] raceInit).t1 = CounterPC.finished false) ∧
    (ledgerCount (runSched 1 0 [false, true, false, false, true, true] raceInit).ledger 0 = 2 ∧
     (runSched 1 0 [false, true, false, false, true, true] raceInit).t0 = CounterPC.finished true ∧
     (runSched 1 0 [false, true, false, false, true, true] raceInit).t1 = CounterPC.finished true) := by
  decide

/-- Lookup in the `daily_counts` dictionary of `get_word_debt`: built by
iterating all `daily_study_log` rows (later rows overwrite earlier ones,
as in a Python dict), read with `.get(date, 0)`. -/
def lookupCount (logs : List (ℤ × ℤ)) (d : ℤ) : ℤ :=
  logs.foldl (fun acc p => if p.1 = d then p.2 else acc) 0

/-- SQL `MIN(date)` over the `daily_study_log` rows: NULL on an empty
table, else the least date present. -/
def earliestDate : List (ℤ × ℤ) → Option ℤ
  | [] => none
  | (d, _) :: rest =>
      match earliestDate rest with
      | none => some d
      | some m => some (min d m)

/-- The `while current_date < today` loop of `get_word_debt`: starting at
`current` and running for `n` days, accumulate `100 - count(day)` for each
day. -/
def totalDebtLoop (logs : List (ℤ × ℤ)) (current : ℤ) : ℕ → ℤ
  | 0 => 0
  | n + 1 => (100 - lookupCount logs current) + totalDebtLoop logs (current + 1) n

/-- The breakdown loop of `get_word_debt`: walk backward from day `d` for
at most `n` days, stopping once a day precedes `earliest`, emitting
(date, 100 - count(date)) for each visited day. -/
def breakdownLoop (logs : List (ℤ × ℤ)) (earliest d : ℤ) : ℕ → List (ℤ × ℤ)
  | 0 => []
  | n + 1 =>
      if d < earliest then []
      else (d, 100 - lookupCount logs d) :: breakdownLoop logs earliest (d - 1) n

/-- The `get_word_debt` computation of src/app.py (lines 1427-1495): total
debt summed from the earliest ledger date up to but excluding today, then
reduced by today's surplus when today's count exceeds 100, clamped at 0;
plus the 20-day backward breakdown starting from yesterday. -/
def get_word_debt (logs : List (ℤ × ℤ)) (today : ℤ) : ℤ × List (ℤ × ℤ) :=
  match earliestDate logs with
  | none => (0, [])
  | some earliest =>
      let base := totalDebtLoop logs earliest (today - earliest).toNat
      let today_count := lookupCount logs today
      let adjusted := if 100 < today_count then base - (today_count - 100) else base
      let total := if adjusted < 0 then 0 else adjusted
      (total, breakdownLoop logs earliest (today - 1) 20)

theorem totalDebtLoop_succ (L : List (ℤ × ℤ)) (c : ℤ) (n : ℕ) :
    totalDebtLoop L c (n + 1) = totalDebtLoop L c n + (100 - lookupCount L (c + n)) := by
  induction n generalizing c with
  | zero => simp [totalDebtLoop]
  | succ n ih =>
      rw [totalDebtLoop, ih (c + 1), totalDebtLoop]
      push_cast
      ring_nf

theorem totalDebtLoop_eq_sum (L : List (ℤ × ℤ)) (c : ℤ) (n : ℕ) :
    totalDebtLoop L c n = ∑ d ∈ Finset.Ico c (c + (n : ℤ)), (100 - lookupCount L d) := by
  induction n with
  | zero => simp [totalDebtLoop]
  | succ n ih =>
      have hins : Finset.Ico c (c + ((n : ℤ) + 1)) = insert (c + n) (Finset.Ico c (c + n)) := by
        ext x
        simp only [Finset.mem_Ico, Finset.mem_insert]
        omega
      rw [totalDebtLoop_succ, ih]
      push_cast
      rw [hins, Finset.sum_insert (by simp)]
      ring

/-- C3: `get_word_debt` returns total 0 and empty breakdown on an empty
ledger; otherwise the total is the sum, over every day from the earliest
ledger date up to but excluding today, of 100 minus that day's count
(absent days counting 0), minus today's surplus when today's count exceeds
100, the result clamped to a minimum of 0. -/
theorem get_word_debt_total (L : List (ℤ × ℤ)) (today : ℤ) :
    (L = [] → get_word_debt L today = (0, [])) ∧
    (∀ e, earliestDate L = some e →
      (get_word_debt L today).1 =
        max 0 ((∑ d ∈ Finset.Ico e today, (100 - lookupCount L d)) -
          (if 100 < lookupCount L today then lookupCount L today - 100 else 0))) := by
  constructor
  · intro h
    subst h
    rfl
  · intro e he
    have hsum : totalDebtLoop L e (today - e).toNat =
        ∑ d ∈ Finset.Ico e today, (100 - lookupCount L d) := by
      rw [totalDebtLoop_eq_sum]
      rcases le_or_lt e today with h | h
      · have : e + (((today - e).toNat : ℕ) : ℤ) = today := by omega
        rw [this]
      · have h0 : (today - e).toNat = 0 := by omega
        have h1 : Finset.Ico e today = ∅ := Finset.Ico_eq_empty (by omega)
        rw [h0, h1]
        simp
    simp only [get_word_debt, he, hsum]
    split_ifs <;> omega

/-- Witness for `get_word_debt_total`: the empty ledger yields (0, []),
and on the ledger {7 ↦ 0, 8 ↦ 150, 9 ↦ 50} with today = 10 the total
equals the clamped spec-side sum. -/
theorem get_word_debt_total_witness :
    get_word_debt ([] : List (ℤ × ℤ)) 5 = (0, []) ∧
    earliestDate [(7, 0), (8, 150), (9, 50)] = some 7 ∧
    (get_word_debt [(7, 0), (8, 150), (9, 50)] 10).1 =
      max 0 ((∑ d ∈ Finset.Ico (7 : ℤ) 10,
          (100 - lookupCount [(7, 0), (8, 150), (9, 50)] d)) -
        (if 100 < lookupCount [(7, 0), (8, 150), (9, 50)] 10 then
          lookupCount [(7, 0), (8, 150), (9, 50)] 10 - 100 else 0)) :=
  ⟨(get_word_debt_total [] 5).1 rfl, rfl, (get_word_debt_total _ 10).2 7 rfl⟩


theorem breakdownLoop_eq (L : List (ℤ × ℤ)) (e : ℤ) (d : ℤ) (n : ℕ) :
    breakdownLoop L e d n =
      (((List.range n).map (fun i : ℕ => d - (i : ℤ))).takeWhile
        (fun x => decide (e ≤ x))).map (fun x => (x, 100 - lookupCount L x)) := by
  induction n generalizing d with
  | zero => simp [breakdownLoop]
  | succ n ih =>
      rw [List.range_succ_eq_map, breakdownLoop]
      by_cases hd : d < e
      · rw [if_pos hd]
        have h0 : decide (e ≤ d - ((0 : ℕ) : ℤ)) = false := by
          simp only [decide_eq_false_iff_not]
          push_cast
          omega
        simp only [List.map_cons, List.takeWhile_cons, h0]
        simp
      · rw [if_neg hd]
        have hfun : ((List.range n).map Nat.succ).map (fun i : ℕ => d - (i : ℤ)) =
            (List.range n).map (fun i : ℕ => d - 1 - (i : ℤ)) := by
          rw [List.map_map]
          refine List.map_congr_left fun i _ => ?_
          simp only [Function.comp_apply]
          push_cast
          ring
        have h1 : decide (e ≤ d - ((0 : ℕ) : ℤ)) = true := by
          simp only [decide_eq_true_eq]
          push_cast
          omega
        simp only [List.map_cons, hfun, List.takeWhile_cons, h1, if_true]
        rw [ih (d - 1)]
        norm_num

/-- C4: for every non-empty ledger, the breakdown of `get_word_debt` walks
backward from yesterday (today excluded) for at most 20 days, stops once a
day precedes the earliest ledger date, and emits (date, 100 − count(day))
with no clamping of individual entries; on the ledger {day7 ↦ 0,
day8 ↦ 150, day9 ↦ 50} with today = day10 it lists (9, 50), (8, −50),
(7, 100) in that backward order. -/
theorem get_word_debt_breakdown (L : List (ℤ × ℤ)) (today e : ℤ)
    (h : earliestDate L = some e) :
    (get_word_debt L today).2 =
      (((List.range 20).map (fun i : ℕ => today - 1 - (i : ℤ))).takeWhile
        (fun x => decide (e ≤ x))).map (fun x => (x, 100 - lookupCount L x)) ∧
    (get_word_debt [(7, 0), (8, 150), (9, 50)] 10).2 = [(9, 50), (8, -50), (7, 100)] := by
  constructor
  · simp only [get_word_debt, h]
    exact breakdownLoop_eq L e (today - 1) 20
  · decide

/-- Witness for `get_word_debt_breakdown`: on the ledger
{7 ↦ 0, 8 ↦ 150, 9 ↦ 50} with today = 10 (earliest date 7), the breakdown
is [(9, 50), (8, −50), (7, 100)]. -/
theorem get_word_debt_breakdown_witness :
    earliestDate [(7, 0), (8, 150), (9, 50)] = some 7 ∧
    (get_word_debt [(7, 0), (8, 150), (9, 50)] 10).2 = [(9, 50), (8, -50), (7, 100)] :=
  ⟨rfl, (get_word_debt_breakdown [(7, 0), (8, 150), (9, 50)] 10 7 rfl).2⟩

/-- A row of the `words` table, restricted to the columns the quiz flow
reads and writes. -/
structure WordRow where
  id : ℤ
  category : String
  review_count : ℤ
  srs_interval : Option ℤ
  srs_repetitions : Option ℤ
  srs_ease_factor : Option ℚ
  next_review_date : Option ℤ
  updated_at : ℤ
  deriving Repr, DecidableEq

/-- The WHERE clause of `get_next_quiz_word` (src/app.py lines 1797-1822):
`review_count >= 1`, the optional category filter (skipped when the
category is empty or "All"), and the due condition
`next_review_date <= NOW() OR next_review_date IS NULL`. -/
def quizCandidates (words : List WordRow) (category : String) (now : ℤ) : List WordRow :=
  words.filter (fun w =>
    decide (1 ≤ w.review_count) &&
    (decide (category = "") || decide (category = "All") ||
      decide (w.category = category)) &&
    (match w.next_review_date with
     | none => true
     | some d => decide (d ≤ now)))

/-- The `CASE WHEN next_review_date IS NULL THEN 1 ELSE 0 END` sort key. -/
def nullFlag (w : WordRow) : ℤ :=
  match w.next_review_date with
  | none => 1
  | some _ => 0

/-- The `next_review_date ASC` sort key (value irrelevant on NULL rows,
which the null flag already orders last). -/
def dateVal (w : WordRow) : ℤ :=
  match w.next_review_date with
  | none => 0
  | some d => d

/-- The full ORDER BY key of `get_next_quiz_word`: null flag, then
next_review_date, then updated_at. -/
def wordKey (w : WordRow) : ℤ × ℤ × ℤ :=
  (nullFlag w, dateVal w, w.updated_at)

/-- Strict lexicographic comparison of ORDER BY keys. -/
def keyLT (a b : ℤ × ℤ × ℤ) : Prop :=
  a.1 < b.1 ∨ (a.1 = b.1 ∧ (a.2.1 < b.2.1 ∨ (a.2.1 = b.2.1 ∧ a.2.2 < b.2.2)))

/-- Non-strict lexicographic comparison of ORDER BY keys. -/
def keyLE (a b : ℤ × ℤ × ℤ) : Prop :=
  a.1 < b.1 ∨ (a.1 = b.1 ∧ (a.2.1 < b.2.1 ∨ (a.2.1 = b.2.1 ∧ a.2.2 ≤ b.2.2)))

instance (a b : ℤ × ℤ × ℤ) : Decidable (keyLT a b) := by
  unfold keyLT
  infer_instance

/-- Minimum of a non-empty candidate list under the ORDER BY key: the row
the `ORDER BY ... LIMIT 1` query returns. -/
def chooseMin (w : WordRow) (ws : List WordRow) : WordRow :=
  ws.foldl (fun best x => if keyLT (wordKey x) (wordKey best) then x else best) w

/-- The `get_next_quiz_word` query: filter to due candidates, order by the
lexicographic key, return the front item (none when no candidate). -/
def get_next_quiz_word (words : List WordRow) (category : String) (now : ℤ) :
    Option WordRow :=
  match quizCandidates words category now with
  | [] => none
  | w :: ws => some (chooseMin w ws)

theorem keyLE_refl (a : ℤ × ℤ × ℤ) : keyLE a a := by
  unfold keyLE
  omega

theorem keyLE_trans (a b c : ℤ × ℤ × ℤ) (h1 : keyLE a b) (h2 : keyLE b c) : keyLE a c := by
  unfold keyLE at h1 h2 ⊢
  omega

theorem keyLT_keyLE (a b : ℤ × ℤ × ℤ) (h : keyLT a b) : keyLE a b := by
  unfold keyLT at h
  unfold keyLE
  omega

theorem keyLE_of_not_keyLT (a b : ℤ × ℤ × ℤ) (h : ¬ keyLT a b) : keyLE b a := by
  unfold keyLT at h
  unfold keyLE
  omega

theorem chooseMin_mem (w : WordRow) (ws : List WordRow) :
    chooseMin w ws ∈ w :: ws := by
  induction ws generalizing w with
  | nil => simp [chooseMin]
  | cons y ys ih =>
      have hstep : chooseMin w (y :: ys) =
          chooseMin (if keyLT (wordKey y) (wordKey w) then y else w) ys := by
        simp [chooseMin, List.foldl_cons]
      rw [hstep]
      by_cases hk : keyLT (wordKey y) (wordKey w)
      · rw [if_pos hk]
        rcases List.mem_cons.1 (ih y) with h | h
        · simp [h]
        · simp [List.mem_cons, h]
      · rw [if_neg hk]
        rcases List.mem_cons.1 (ih w) with h | h
        · simp [h]
        · simp [List.mem_cons, h]

theorem chooseMin_le (w : WordRow) (ws : List WordRow) :
    keyLE (wordKey (chooseMin w ws)) (wordKey w) ∧
    ∀ x ∈ ws, keyLE (wordKey (chooseMin w ws)) (wordKey x) := by
  induction ws generalizing w with
  | nil => exact ⟨keyLE_refl _, by simp⟩
  | cons y ys ih =>
      have hstep : chooseMin w (y :: ys) =
          chooseMin (if keyLT (wordKey y) (wordKey w) then y else w) ys := by
        simp [chooseMin, List.foldl_cons]
      rw [hstep]
      by_cases hk : keyLT (wordKey y) (wordKey w)
      · rw [if_pos hk]
        obtain ⟨h1, h2⟩ := ih y
        refine ⟨keyLE_trans _ _ _ h1 (keyLT_keyLE _ _ hk), ?_⟩
        intro x hx
        rcases List.mem_cons.1 hx with h | h
        · rw [h]
          exact h1
        · exact h2 x h
      · rw [if_neg hk]
        obtain ⟨h1, h2⟩ := ih w
        refine ⟨h1, ?_⟩
        intro x hx
        rcases List.mem_cons.1 hx with h | h
        · rw [h]
          exact keyLE_trans _ _ _ h1 (keyLE_of_not_keyLT _ _ hk)
        · exact h2 x h

theorem mem_quizCandidates (words : List WordRow) (category : String) (now : ℤ)
    (w : WordRow) (h : w ∈ quizCandidates words category now) :
    1 ≤ w.review_count ∧ (∀ d, w.next_review_date = some d → d ≤ now) := by
  unfold quizCandidates at h
  have h2 := (List.mem_filter.1 h).2
  simp only [Bool.and_eq_true, Bool.or_eq_true, decide_eq_true_eq] at h2
  obtain ⟨⟨hrc, _⟩, hdue⟩ := h2
  refine ⟨hrc, ?_⟩
  intro d hd
  rw [hd] at hdue
  simpa using hdue

theorem keyLE_dated (w v : WordRow) (d : ℤ) (hv : v.next_review_date = some d)
    (h : keyLE (wordKey w) (wordKey v)) :
    ∃ dw, w.next_review_date = some dw ∧ dw ≤ d := by
  rcases hw : w.next_review_date with _ | dw
  · exfalso
    have h1 : nullFlag w = 1 := by simp [nullFlag, hw]
    have h2 : nullFlag v = 0 := by simp [nullFlag, hv]
    simp only [keyLE, wordKey] at h
    simp only [h1, h2] at h
    omega
  · refine ⟨dw, rfl, ?_⟩
    have h1 : nullFlag w = 0 := by simp [nullFlag, hw]
    have h2 : nullFlag v = 0 := by simp [nullFlag, hv]
    have h3 : dateVal w = dw := by simp [dateVal, hw]
    have h4 : dateVal v = d := by simp [dateVal, hv]
    simp only [keyLE, wordKey] at h
    simp only [h1, h2, h3, h4] at h
    omega

/-- C6: whenever `get_next_quiz_word` returns a word, that word is a due
candidate (legacy deficit metric ≥ 1 — never 0 — and next_review_date
absent or ≤ now) and is the front item of the ORDER BY: its key (null flag,
next_review_date, updated_at) is ≤ every candidate's key; in particular
against any candidate with a (necessarily due) dated next_review_date, the
returned word is itself dated with a date at most as late, so a
most-overdue dated word is returned before any word with a null date. -/
theorem get_next_quiz_word_spec (words : List WordRow) (category : String) (now : ℤ)
    (w : WordRow) (h : get_next_quiz_word words category now = some w) :
    w ∈ quizCandidates words category now ∧
    1 ≤ w.review_count ∧
    (∀ d, w.next_review_date = some d → d ≤ now) ∧
    (∀ v ∈ quizCandidates words category now, keyLE (wordKey w) (wordKey v)) ∧
    (∀ v ∈ quizCandidates words category now, ∀ d, v.next_review_date = some d →
      ∃ dw, w.next_review_date = some dw ∧ dw ≤ d) := by
  unfold get_next_quiz_word at h
  rcases hc : quizCandidates words category now with _ | ⟨hd, tl⟩
  · rw [hc] at h
    exact absurd h (by simp)
  · rw [← hc]
    rw [hc] at h
    have hw : chooseMin hd tl = w := by
      simpa using h
    have hmem : w ∈ quizCandidates words category now := by
      rw [hc, ← hw]
      exact chooseMin_mem hd tl
    have hle : ∀ v ∈ quizCandidates words category now, keyLE (wordKey w) (wordKey v) := by
      intro v hv
      rw [hc] at hv
      rcases List.mem_cons.1 hv with h1 | h1
      · rw [← hw, h1]
        exact (chooseMin_le hd tl).1
      · rw [← hw]
        exact (chooseMin_le hd tl).2 v h1
    obtain ⟨hrc, hdue⟩ := mem_quizCandidates words category now w hmem
    exact ⟨hmem, hrc, hdue, hle, fun v hv d hvd => keyLE_dated w v d hvd (hle v hv)⟩

/-- Sample word with no next_review_date for the `get_next_quiz_word`
witness. -/
def wNull : WordRow :=
  { id := 1, category := "General", review_count := 1, srs_interval := none,
    srs_repetitions := none, srs_ease_factor := none, next_review_date := none,
    updated_at := 0 }

/-- Sample word, overdue since day 3, for the `get_next_quiz_word`
witness. -/
def wEarly : WordRow :=
  { id := 2, category := "General", review_count := 2, srs_interval := some 1,
    srs_repetitions := some 1, srs_ease_factor := none,
    next_review_date := some 3, updated_at := 9 }

/-- Sample word, overdue since day 5, for the `get_next_quiz_word`
witness. -/
def wLate : WordRow :=
  { id := 3, category := "General", review_count := 1, srs_interval := some 1,
    srs_repetitions := some 1, srs_ease_factor := none,
    next_review_date := some 5, updated_at := 1 }

/-- Witness for `get_next_quiz_word_spec`: among a null-date word and two
dated due words, the query returns the most overdue dated word (day 3),
which has deficit metric ≥ 1 and a date at most that of the other dated
candidate. -/
theorem get_next_quiz_word_spec_witness :
    get_next_quiz_word [wNull, wEarly, wLate] "All" 10 = some wEarly ∧
    1 ≤ wEarly.review_count ∧
    (∃ dw, wEarly.next_review_date = some dw ∧ dw ≤ 5) := by
  have h : get_next_quiz_word [wNull, wEarly, wLate] "All" 10 = some wEarly := by
    decide
  have hs := get_next_quiz_word_spec [wNull, wEarly, wLate] "All" 10 wEarly h
  exact ⟨h, hs.2.1, hs.2.2.2.2 wLate (by decide) 5 (by decide)⟩

/-- Lookup of `SELECT ... FROM words WHERE id = %s`: the row with the
given id, none when the id has no row. -/
def findWord : List WordRow → ℤ → Option WordRow
  | [], _ => none
  | w :: rest, i => if w.id = i then some w else findWord rest i

/-- Error outcomes of `submit_quiz_result`: the 400 "Invalid result value"
rejection and the 404 "Word not found" rejection. -/
inductive QuizError where
  | invalid_result : QuizError
  | word_not_found : QuizError
  deriving Repr, DecidableEq

/-- The `submit_quiz_result` endpoint (src/app.py lines 1843-1955) after
request parsing: reject a result outside {"remember", "not_remember"}
before touching the store; reject an unknown word id; otherwise read the
row (NULL SRS fields defaulted via Python `or` to 0/0/2.5), apply the SRS
update, and write the five fields plus updated_at back to the word's row.
Returns the response and the words table after the request. -/
def submit_quiz_result (words : List WordRow) (word_id : ℤ) (result : String)
    (now : ℤ) : Except QuizError SRSResult × List WordRow :=
  if result ≠ "remember" ∧ result ≠ "not_remember" then
    (Except.error QuizError.invalid_result, words)
  else
    match findWord words word_id with
    | none => (Except.error QuizError.word_not_found, words)
    | some w =>
        let res := applyReviewOutcome (pyOrInt w.srs_interval 0)
          (pyOrInt w.srs_repetitions 0) (pyOrRat w.srs_ease_factor 2.5)
          w.review_count result
        (Except.ok res,
          words.map (fun v =>
            if v.id = word_id then
              { v with review_count := res.new_count,
                       srs_interval := some res.interval,
                       srs_repetitions := some res.repetitions,
                       srs_ease_factor := some res.ease_factor,
                       next_review_date := some (next_review now res.interval),
                       updated_at := now }
            else v))

/-- C8: a result value outside {"remember", "not_remember"} is rejected
with the invalid-result error before any state mutation (the words table
is returned unchanged); a valid result for a word id with no row fails
with the not-found error, also with no state mutated. (This endpoint never
touches the daily ledger, so ledger state is trivially unchanged too.) -/
theorem submit_quiz_result_errors (words : List WordRow) (word_id : ℤ)
    (result : String) (now : ℤ) :
    (result ≠ "remember" → result ≠ "not_remember" →
      submit_quiz_result words word_id result now =
        (Except.error QuizError.invalid_result, words)) ∧
    ((result = "remember" ∨ result = "not_remember") →
      findWord words word_id = none →
      submit_quiz_result words word_id result now =
        (Except.error QuizError.word_not_found, words)) := by
  constructor
  · intro h1 h2
    unfold submit_quiz_result
    rw [if_pos ⟨h1, h2⟩]
  · intro hv hf
    unfold submit_quiz_result
    rw [if_neg (by tauto), hf]

/-- Witness for `submit_quiz_result_errors`: the result "bogus" is
rejected as invalid with the empty table unchanged, and a valid result for
the unknown id 1 in the empty table is rejected as not found. -/
theorem submit_quiz_result_errors_witness :
    (("bogus" : String) ≠ "remember" ∧ ("bogus" : String) ≠ "not_remember" ∧
      submit_quiz_result [] 1 "bogus" 0 =
        (Except.error QuizError.invalid_result, [])) ∧
    (findWord [] 1 = none ∧
      submit_quiz_result [] 1 "remember" 0 =
        (Except.error QuizError.word_not_found, [])) :=
  ⟨⟨by decide, by decide,
      (submit_quiz_result_errors [] 1 "bogus" 0).1 (by decide) (by decide)⟩,
    ⟨rfl, (submit_quiz_result_errors [] 1 "remember" 0).2 (Or.inl rfl) rfl⟩⟩
